import Mathlib

/-!
# Shell: command segmentation, dispatch and background-job reaping

A shallow embedding of `src/shell.cc`:

* `parse_line` (lines 150-204), together with the `std::istringstream`
  extraction `iss >> word` it is built on;
* `echo_command` (206-219) and `cd_command` (221-230);
* `execute_program` / `spawn_proccess` as seen from the parent process (449-520);
* `execute_commands` (522-639): the reap pass over the static `pending_pid`
  vector and the dispatch loop.

Strings are lists of characters, C `int`/`pid_t` values are integers.  An
operation whose behaviour the language leaves undefined is followed on the
storage of the vector where the program goes on (an `erase` inside the loop
over `pending_pid`, `cmd[0]` on a command emptied by `pop_back`), and is a
`Fault` where it stops the program (`cmd[0]` on a vector without storage,
`pop_back` on an empty `std::string`).
-/

namespace Shell

/-! ## Data model -/

/-- Source: `using command = std::vector<std::string>` (line 30). -/
abbrev command := List (List Char)

/-- Source: `struct command_result` (lines 35-46). -/
structure command_result where
  return_value : Int
  is_quit_requested : Bool
deriving DecidableEq, Repr

/-- Source: `command_result::quit` (lines 42-45). -/
def command_result.quit (return_value : Int) : command_result :=
  { return_value := return_value, is_quit_requested := true }

/-! ## The segmenter: `parse_line` -/

/-- Whitespace as skipped by `operator>>` in the default "C" locale. -/
def isspace (c : Char) : Bool :=
  c == ' ' || c == '\t' || c == '\n' || c == '\x0b' || c == '\x0c' || c == '\r'

/-- Source: `iss >> word` (line 160).  Leading whitespace is skipped, then
characters are taken up to the next whitespace or the end of the input.  The
result is the extracted word (empty when the extraction fails) and the unread
rest of the stream. -/
def read_word (s : List Char) : List Char × List Char :=
  let s1 := s.dropWhile isspace
  (s1.takeWhile (fun c => !isspace c), s1.dropWhile (fun c => !isspace c))

/-- Source: the test of line 166, `last_character == ';' || ... '&' || ... '|'`. -/
def is_operator (c : Char) : Bool :=
  c == ';' || c == '&' || c == '|'

/-- What one pass through the body of the `while` loop of `parse_line` does. -/
inductive Step where
  /-- Line 162: `break`. -/
  | brk
  /-- Lines 181 and 188: `return commands`. -/
  | ret (commands : List command)
  /-- The body ran to its end; the loop goes on with these values. -/
  | next (commands : List command) (arguments : command)
deriving DecidableEq, Repr

/-- Source: body of the `while` loop of `parse_line` (lines 162-194) for the
word that was just extracted. -/
def parse_word (word : List Char) (commands : List command) (arguments : command) : Step :=
  match word.getLast? with
  | none => Step.brk
  | some last_character =>
    if is_operator last_character then
      let arguments1 := if word.length > 1 then arguments ++ [word.dropLast] else arguments
      let arguments2 := arguments1 ++ [[last_character]]
      Step.next (commands ++ [arguments2]) []
    else if last_character = '#' then
      Step.ret (commands ++ [arguments])
    else if word.head? = some '#' then
      Step.ret (commands ++ [arguments])
    else
      Step.next commands (arguments ++ [word])

/-- Source: lines 197-203, the code after the loop. -/
def parse_finish (commands : List command) (arguments : command) : List command :=
  if arguments ≠ [] then commands ++ [arguments] else commands

/-- Source: the `while(!iss.eof())` loop of `parse_line` (lines 157-195).  `s` is
the unread input and `eof` the stream's end-of-file flag, which an extraction
sets when it runs into the end of the input.  One unit of `fuel` is used per
iteration; `none` means the fuel ran out. -/
def parse_loop : Nat → List Char → Bool → List command → command → Option (List command)
  | 0, _, _, _, _ => none
  | fuel + 1, s, eof, commands, arguments =>
    if eof then some (parse_finish commands arguments)
    else
      match parse_word (read_word s).1 commands arguments with
      | Step.brk => some (parse_finish commands arguments)
      | Step.ret cs => some cs
      | Step.next cs as =>
        parse_loop fuel (read_word s).2 (read_word s).2.isEmpty cs as

/-- Source: `parse_line` (lines 150-204). -/
def parse_line (line : List Char) : Option (List command) :=
  parse_loop (line.length + 1) line false [] []

/-- The loop of `parse_line` run over an already tokenised line. -/
def parse_words : List (List Char) → List command → command → List command
  | [], commands, arguments => parse_finish commands arguments
  | word :: ws, commands, arguments =>
    match parse_word word commands arguments with
    | Step.brk => parse_finish commands arguments
    | Step.ret cs => cs
    | Step.next cs as => parse_words ws cs as

/-- Whitespace tokenisation of a line: the maximal runs of non-whitespace
characters, in order. -/
def words (line : List Char) : List (List Char) :=
  (line.splitOnP isspace).filter (fun w => !w.isEmpty)

/-! ## Builtin handlers -/

/-- Operations on which the language defines no behaviour, and the assertion
of `copy_file` / `move_file`. -/
inductive Fault where
  /-- `operator[]` past the end of a `std::vector`. -/
  | index_out_of_range
  /-- `pop_back` on an empty `std::string`. -/
  | pop_back_on_empty
  /-- The assertion at lines 285 and 349 failed. -/
  | assertion_failed
deriving DecidableEq, Repr

/-- Source: `echo_command` (lines 206-219).  The result is the text sent to
`std::cout` and the returned status. -/
def echo_command (args : command) : Except Fault (List Char × Int) :=
  let output := (args.drop 1).foldl (fun output arg => output ++ arg ++ [' ']) []
  if output.length = 0 then Except.error Fault.pop_back_on_empty
  else Except.ok (output.dropLast ++ ['\n'], 0)

/-- How a call of `copy_file` or `move_file` ends. -/
inductive FileResult where
  /-- The function returned. -/
  | done
  /-- A `std::system_error` with this code was thrown (lines 275, 280, 339, 344). -/
  | thrown (code : Int)
  /-- The assertion at line 285 or 349 failed. -/
  | aborted
deriving DecidableEq, Repr

/-- What the operating system answers to the shell.  Every answer may depend
on the number of events recorded so far (the first argument), so that a call
repeated later can be answered differently. -/
structure World where
  /-- Line 536, `waitpid(child_pid, &status, WNOHANG)`: the returned value and
  the value of `status` afterwards. -/
  waitpid : Nat → Int → Int × Int
  /-- What `fork()` returns in the shell's process (lines 451, 485): the
  identifier of the child, or nothing when no process could be created. -/
  fork : Nat → command → Option Int
  /-- Lines 463-464 and 505-506: `WEXITSTATUS(status)` after `wait(&status)`. -/
  wait : Nat → command → Int
  /-- Line 229: `chdir(args[1].c_str())`. -/
  chdir : Nat → List Char → Int
  /-- Lines 265-327: `copy_file(src_path, dst_path, preserve_all)`. -/
  copy_file : Nat → List Char → List Char → Bool → FileResult
  /-- Lines 329-391: `move_file(src_path, dst_path)`. -/
  move_file : Nat → List Char → List Char → FileResult

/-- Source: `cd_command` (lines 221-230). -/
def cd_command (w : World) (t : Nat) (args : command) : Int :=
  if args.length ≠ 2 then 1 else w.chdir t (args.getD 1 [])

/-- Source: `cp_command` (lines 393-418), followed by the `catch` of lines
581-585 that turns a thrown `std::system_error` into its code. -/
def cp_command (w : World) (t : Nat) (args : command) : Except Fault Int :=
  let finish (r : FileResult) : Except Fault Int :=
    match r with
    | FileResult.done => Except.ok 0
    | FileResult.thrown code => Except.ok code
    | FileResult.aborted => Except.error Fault.assertion_failed
  if args.length = 3 then finish (w.copy_file t (args.getD 1 []) (args.getD 2 []) false)
  else if args.length = 4 then
    if args.getD 1 [] = "-a".toList then
      finish (w.copy_file t (args.getD 2 []) (args.getD 3 []) true)
    else Except.ok 1
  else Except.ok 1

/-- Source: `mv_command` (lines 420-433), followed by the `catch` of lines
593-597. -/
def mv_command (w : World) (t : Nat) (args : command) : Except Fault Int :=
  if args.length = 3 then
    match w.move_file t (args.getD 1 []) (args.getD 2 []) with
    | FileResult.done => Except.ok 0
    | FileResult.thrown code => Except.ok code
    | FileResult.aborted => Except.error Fault.assertion_failed
  else Except.ok 1

/-! ## Process launching, as seen from the shell's own process -/

/-- Source: `execute_program` (lines 449-478).  The branch `child == 0` runs in
the child, which leaves through `exit`; the shell's process sees the other two. -/
def execute_program (w : World) (t : Nat) (args : command) (has_wait : Bool) : Int :=
  match w.fork t args with
  | some child => if has_wait then w.wait t args else child
  | none => 1

/-- Source: `spawn_proccess` (lines 480-520), the handler running in the child. -/
def spawn_proccess (w : World) (t : Nat) (args : command) (has_wait : Bool) : Int :=
  match w.fork t args with
  | some child => if has_wait then w.wait t args else child
  | none => 1

/-! ## The dispatch loop and the job table: `execute_commands` -/

/-- What `execute_commands` does that can be observed from outside. -/
inductive Event where
  /-- Line 536: the non-blocking check of one process identifier. -/
  | check (child_pid : Int)
  /-- Line 546: the completion notice for a process identifier. -/
  | notice (child_pid status : Int)
  /-- Text written to `std::cout` by `echo_command` or by line 606. -/
  | stdout (text : List Char)
  /-- Lines 569-591: a builtin handler called in the shell's own process. -/
  | handler (cmd : command)
  /-- Lines 610-625: a builtin handler started in a new process. -/
  | spawn (cmd : command) (has_wait : Bool)
  /-- Lines 601 and 629: an external program started in a new process. -/
  | program (cmd : command) (has_wait : Bool)
  /-- Lines 567-587 and 607-622: `cmd[0]` evaluated on a vector that line 563
  has emptied; `slot` is what the storage still holds there. -/
  | out_of_range (slot : List Char)
deriving DecidableEq, Repr

/-- The static vector `pending_pid` (line 526) while the range-based `for` of
line 531 runs: its storage, which keeps its length, and its `size()`. -/
structure Vec where
  storage : List Int
  size : Nat
deriving DecidableEq, Repr

/-- Source: `pending_pid.erase(pending_pid.begin() + i)` (line 543) on the
contiguous storage of a `std::vector`: the elements behind slot `i` move down
by one, `size()` drops by one, and the slot that is now past the end keeps the
value it had. -/
def erase_at (v : Vec) (i : Nat) : Vec :=
  { storage := v.storage.take i ++ ((v.storage.drop (i + 1)).take (v.size - (i + 1))
      ++ v.storage.drop (v.size - 1)),
    size := v.size - 1 }

/-- Source: the inner loop of lines 539-545.  `i` runs upwards while
`i < pending_pid.size()`; the size only shrinks, so the iterations after the
test has failed once change nothing. -/
def erase_pid (child_pid : Int) (v : Vec) : Vec :=
  (List.range v.size).foldl
    (fun v i =>
      if i < v.size then
        if v.storage.getD i 0 = child_pid then erase_at v i else v
      else v)
    v

/-- Source: body of the range-based `for` of lines 531-549 with the loop
pointer at slot `i`. -/
def reap_step (w : World) (st : Vec × List Event) (i : Nat) : Vec × List Event :=
  let child_pid := st.1.storage.getD i 0
  if child_pid ≠ 0 then
    let r := w.waitpid st.2.length child_pid
    let trace := st.2 ++ [Event.check child_pid]
    if r.1 ≠ 0 then (erase_pid child_pid st.1, trace ++ [Event.notice child_pid r.2])
    else (st.1, trace)
  else st

/-- Source: the reap pass, lines 531-549.  The range-based `for` takes
`begin()` and `end()` once, before the first iteration, so it visits the slots
`0 .. size-1` of the storage as sized on entry, whatever `erase` does to the
vector meanwhile.  (The language does not define the use of the loop's
iterators after an `erase`; this is what the loop does on the contiguous
storage of the vector, where `erase` neither moves nor frees the storage.) -/
def reap_pass (w : World) (pending_pid : List Int) (trace : List Event) :
    List Int × List Event :=
  let r := (List.range pending_pid.length).foldl (reap_step w)
    ({ storage := pending_pid, size := pending_pid.length }, trace)
  (r.1.storage.take r.1.size, r.2)

/-- Source: lines 565-631, the dispatch of one command once its operator has
been removed.  `slot` is what `cmd[0]` reads: the first token of the command,
or, for a command that line 563 has emptied, the removed operator token, which
the vector's storage still holds.  The result is the events produced and the
value assigned to `res`. -/
def dispatch (w : World) (t : Nat) (foreground : Bool) (slot : List Char) (cmd : command) :
    List Event × Except Fault Int :=
  let index := if cmd.length = 0 then [Event.out_of_range slot] else []
  if foreground then
    if slot = "echo".toList then
      match echo_command cmd with
      | Except.error f => (index ++ [Event.handler cmd], Except.error f)
      | Except.ok (text, status) =>
        (index ++ [Event.handler cmd, Event.stdout text], Except.ok status)
    else if slot = "cd".toList then
      (index ++ [Event.handler cmd], Except.ok (cd_command w t cmd))
    else if slot = "cp".toList then (index ++ [Event.handler cmd], cp_command w t cmd)
    else if slot = "mv".toList then (index ++ [Event.handler cmd], mv_command w t cmd)
    else (index ++ [Event.program cmd true], Except.ok (execute_program w t cmd true))
  else
    if slot = "echo".toList ∨ slot = "cd".toList ∨ slot = "cp".toList ∨ slot = "mv".toList then
      (Event.stdout "Background\n".toList :: index ++ [Event.spawn cmd false],
        Except.ok (spawn_proccess w t cmd false))
    else
      (Event.stdout "Background\n".toList :: index ++ [Event.program cmd false],
        Except.ok (execute_program w t cmd false))

deriving instance DecidableEq for Except

/-- The outcome of one call of `execute_commands`: the returned value (or the
fault that stopped the call), `pending_pid` afterwards, and the events. -/
structure Run where
  result : Except Fault command_result
  pending_pid : List Int
  trace : List Event
deriving DecidableEq, Repr

/-- Source: lines 557-564: whether the last token of `cmd` is an operator. -/
def has_operator (cmd : command) : Bool :=
  cmd.getLast? = some "&".toList || cmd.getLast? = some ";".toList
    || cmd.getLast? = some "|".toList

/-- Source: the loop over the batch, lines 551-636, and the `return` of line
638.  `foreground` and `res` are the locals of lines 528-529.  A command with
no token at all has no storage, and the test of line 553 stops the call; a
command emptied by line 563 keeps its storage, where `cmd[0]` still finds the
token `first`. -/
def run_batch (w : World) : List command → Bool → Int → List Int → List Event → Run
  | [], _, res, pending_pid, trace =>
    { result := Except.ok { return_value := res, is_quit_requested := false },
      pending_pid := pending_pid, trace := trace }
  | cmd :: rest, foreground, res, pending_pid, trace =>
    match cmd.head? with
    | none => { result := Except.error Fault.index_out_of_range,
                pending_pid := pending_pid, trace := trace }
    | some first =>
      if first = "exit".toList then
        { result := Except.ok (command_result.quit res),
          pending_pid := pending_pid, trace := trace }
      else
        let foreground1 := if cmd.getLast? = some "&".toList then false else foreground
        let cmd1 := if has_operator cmd then cmd.dropLast else cmd
        match dispatch w trace.length foreground1 first cmd1 with
        | (events, Except.error f) =>
          { result := Except.error f, pending_pid := pending_pid, trace := trace ++ events }
        | (events, Except.ok res1) =>
          run_batch w rest foreground1 res1
            (if foreground1 then pending_pid else pending_pid ++ [res1]) (trace ++ events)

/-- Source: `execute_commands` (lines 522-639).  The static `pending_pid` is
passed in and handed back in the result. -/
def execute_commands (w : World) (pending_pid : List Int) (commands : List command) : Run :=
  let r := reap_pass w pending_pid []
  run_batch w commands true 0 r.1 r.2

/-- A world for examples: every process gets identifier 4242 + the time of the
fork, `false` exits with status 1, everything else with 0, and no background
process has finished when it is checked. -/
def quiet : World :=
  { waitpid := fun _ _ => (0, 0)
    fork := fun t _ => some (4242 + t)
    wait := fun _ args => if args.head? = some "false".toList then 1 else 0
    chdir := fun _ _ => 0
    copy_file := fun _ _ _ _ => FileResult.done
    move_file := fun _ _ _ => FileResult.done }

/-- The batch that `parse_line` returns for a line, run by `execute_commands`. -/
def run_line (w : World) (pending_pid : List Int) (line : String) : Option Run :=
  (parse_line line.toList).map (execute_commands w pending_pid)

/-! ## Vocabulary of the properties -/

/-- The tokens a word of the line is cut into: a word of two or more
characters that ends in `;`, `&` or `|` gives the word without that character,
followed by the character on its own; every other word is one token. -/
def split_word (w : List Char) : List (List Char) :=
  match w.getLast? with
  | some c => if is_operator c = true ∧ w.length > 1 then [w.dropLast, [c]] else [w]
  | none => [w]

/-- Gluing the tokens of one word together again: an operator token that was
split from a longer word goes back onto the token before it. -/
def glue : List (List Char) → List Char
  | [t] => t
  | [t, op] => t ++ op
  | _ => []

/-- What the comment rule promises for a line whose first `#` word comes
after the words `pre`: `parse_line` returns segments `closed`, each ended by
an operator token, and then the words accumulated since the last operator as
the final segment `last`, which carries no operator; these are what the words
`pre` alone give, their tokens are the tokens of the words `pre` and of no
other word, and none of them begins with `#`. -/
def stops_after (line : List Char) (pre : List (List Char)) : Prop :=
  ∃ closed last, parse_line line = some (closed ++ [last]) ∧
    parse_words pre [] [] = parse_finish closed last ∧
    (closed ++ [last]).flatten = (pre.map split_word).flatten ∧
    (∀ seg ∈ closed, ∃ c, is_operator c = true ∧ seg.getLast? = some [c]) ∧
    (∀ t ∈ last, ∀ c, t.getLast? = some c → is_operator c = false) ∧
    (∀ seg ∈ closed ++ [last], ∀ t ∈ seg, t.head? ≠ some '#')

/-- The comment rule as the specification words it: the line stops after the
words that precede the first word beginning with `#`.  (Removing one trailing
operator from a word does not change how it begins.) -/
def comment_rule_as_specified (line : List Char) : Prop :=
  ∀ pre w post, words line = pre ++ w :: post →
    (∀ x ∈ pre, x.head? ≠ some '#') → w.head? = some '#' →
    stops_after line pre

/-- What the loop of `parse_line` keeps true of the closed segments and of the
accumulated words as long as no word begins with `#`. -/
def segments_ok (commands : List command) (arguments : command) : Prop :=
  (∀ seg ∈ commands, ∃ c, is_operator c = true ∧ seg.getLast? = some [c]) ∧
  (∀ t ∈ arguments, ∀ c, t.getLast? = some c → is_operator c = false) ∧
  (∀ seg ∈ commands, ∀ t ∈ seg, t.head? ≠ some '#') ∧
  (∀ t ∈ arguments, t.head? ≠ some '#')

/-- The commands handed to a builtin handler or to a process spawn, in the
order of the events. -/
def dispatched : List Event → List command
  | [] => []
  | Event.handler cmd :: es => cmd :: dispatched es
  | Event.spawn cmd _ :: es => cmd :: dispatched es
  | Event.program cmd _ :: es => cmd :: dispatched es
  | _ :: es => dispatched es

/-- Source: lines 557-564, the command as it is dispatched: without its
trailing operator token. -/
def strip_operator (cmd : command) : command :=
  if has_operator cmd then cmd.dropLast else cmd

/-- Source: the test of line 553, `cmd[0] == "exit"`. -/
def is_exit (cmd : command) : Bool :=
  cmd.head? == some "exit".toList

/-- The arguments of `echo` joined by single spaces. -/
def join_with_spaces : List (List Char) → List Char
  | [] => []
  | [a] => a
  | a :: b :: rest => a ++ ' ' :: join_with_spaces (b :: rest)

/-- The world `quiet`, except that the process 4242 has finished whenever it
is checked. -/
def first_done : World :=
  { quiet with waitpid := fun _ child_pid => if child_pid = 4242 then (4242, 0) else (0, 0) }

/-- The world `quiet`, except that the processes 4242 and 4246 have finished
when they are first checked; a later check of the same process finds no such
child any more and returns -1. -/
def two_done : World :=
  { quiet with
    waitpid := fun t child_pid =>
      if child_pid = 4242 then (if t = 0 then 4242 else -1, 0)
      else if child_pid = 4246 then (if t ≤ 2 then 4246 else -1, 0)
      else (0, 0) }

/-! ## Tokenisation -/

theorem read_word_length (s : List Char) :
    (read_word s).1.length + (read_word s).2.length ≤ s.length := by
  have h1 := List.takeWhile_append_dropWhile (fun c => !isspace c) (s.dropWhile isspace)
  have h2 := List.takeWhile_append_dropWhile isspace s
  have h3 := congrArg List.length h1
  have h4 := congrArg List.length h2
  simp only [List.length_append] at h3 h4
  simp only [read_word]
  omega

theorem words_nil : words [] = [] := by
  simp [words, List.splitOnP_nil]

theorem words_cons_space (c : Char) (cs : List Char) (h : isspace c = true) :
    words (c :: cs) = words cs := by
  simp [words, List.splitOnP_cons, h]

theorem splitOnP_eq_takeWhile (s : List Char) :
    s.splitOnP isspace = s.takeWhile (fun c => !isspace c) ::
      (match s.dropWhile (fun c => !isspace c) with
       | [] => []
       | _ :: rest => rest.splitOnP isspace) := by
  induction s with
  | nil => simp [List.splitOnP_nil]
  | cons c cs ih =>
    rw [List.splitOnP_cons]
    by_cases h : isspace c = true
    · simp [h]
    · simp only [h]
      rw [ih]
      simp [List.takeWhile_cons, List.dropWhile_cons, h]

theorem words_unfold (s : List Char) :
    words s = if (read_word s).1 = [] then [] else (read_word s).1 :: words (read_word s).2 := by
  induction s with
  | nil => simp [words_nil, read_word]
  | cons c cs ih =>
    by_cases h : isspace c = true
    · rw [words_cons_space c cs h, ih]
      simp [read_word, List.dropWhile_cons, h]
    · have hd : (c :: cs).dropWhile isspace = c :: cs := by simp [List.dropWhile_cons, h]
      have hw : (read_word (c :: cs)).1 = c :: cs.takeWhile (fun c => !isspace c) := by
        simp [read_word, hd, List.takeWhile_cons, h]
      have hr : (read_word (c :: cs)).2 = cs.dropWhile (fun c => !isspace c) := by
        simp [read_word, hd, List.dropWhile_cons, h]
      rw [hw, hr]
      simp only [words]
      rw [splitOnP_eq_takeWhile (c :: cs)]
      simp only [List.takeWhile_cons, List.dropWhile_cons, h]
      have key : ∀ d : List Char, d = cs.dropWhile (fun c => !isspace c) →
          List.filter (fun w => !w.isEmpty)
            (match d with
             | [] => []
             | _ :: rest => rest.splitOnP isspace) =
          List.filter (fun w => !w.isEmpty) (d.splitOnP isspace) := by
        intro d hdrop
        cases d with
        | nil => simp [List.splitOnP_nil]
        | cons x rest =>
          have hx : isspace x = true := by
            have hne : cs.dropWhile (fun c => !isspace c) ≠ [] := by
              rw [← hdrop]; simp
            have := List.head_dropWhile_not (fun c => !isspace c) cs hne
            simp only [← hdrop, List.head_cons] at this
            simpa using this
          simp [List.splitOnP_cons, hx]
      simpa using key _ rfl

theorem parse_word_nil (commands : List command) (arguments : command) :
    parse_word [] commands arguments = Step.brk := rfl

theorem parse_loop_eq_parse_words (fuel : Nat) :
    ∀ (s : List Char) (eof : Bool) (commands : List command) (arguments : command),
      (eof = true → s = []) → s.length < fuel →
      parse_loop fuel s eof commands arguments
        = some (parse_words (words s) commands arguments) := by
  induction fuel with
  | zero => intro s eof commands arguments _ h; omega
  | succ fuel ih =>
    intro s eof commands arguments heof hlen
    rw [parse_loop]
    by_cases he : eof = true
    · rw [if_pos he, heof he, words_nil, parse_words]
    · rw [if_neg he, words_unfold s]
      have hl := read_word_length s
      by_cases hw : (read_word s).1 = []
      · rw [if_pos hw, hw, parse_word_nil, parse_words]
      · rw [if_neg hw, parse_words]
        have hpos : 0 < (read_word s).1.length := List.length_pos.mpr hw
        cases hstep : parse_word (read_word s).1 commands arguments with
        | brk => rfl
        | ret cs => rfl
        | next cs as =>
          simp only []
          apply ih
          · intro h; simpa using h
          · omega

/-- The loop of `parse_line` always ends within its fuel, and it handles the
whitespace-separated words of the line one after the other. -/
theorem parse_line_eq_parse_words (line : List Char) :
    parse_line line = some (parse_words (words line) [] []) :=
  parse_loop_eq_parse_words (line.length + 1) line false [] [] (by simp) (by omega)

/-! ## Segmenter: the token stream -/

theorem words_ne_nil (s : List Char) : ∀ w ∈ words s, w ≠ [] := by
  intro w hw
  simp only [words, List.mem_filter] at hw
  intro h
  simp [h] at hw

theorem words_subset (n : Nat) :
    ∀ s : List Char, s.length ≤ n → ∀ w ∈ words s, ∀ c ∈ w, c ∈ s := by
  induction n with
  | zero =>
    intro s hs w hw
    have : s = [] := List.length_eq_zero.mp (by omega)
    rw [this, words_nil] at hw
    simp at hw
  | succ n ih =>
    intro s hs w hw c hc
    rw [words_unfold] at hw
    by_cases h1 : (read_word s).1 = []
    · simp [h1] at hw
    · rw [if_neg h1, List.mem_cons] at hw
      have hl := read_word_length s
      have hpos : 0 < (read_word s).1.length := List.length_pos.mpr h1
      rcases hw with hw | hw
      · rw [hw] at hc
        exact (List.dropWhile_sublist isspace).subset
          ((List.takeWhile_sublist _).subset hc)
      · have hcr := ih (read_word s).2 (by omega) w hw c hc
        exact (List.dropWhile_sublist isspace).subset
          ((List.dropWhile_sublist _).subset hcr)

theorem parse_word_operator (w : List Char) (c : Char) (commands : List command)
    (arguments : command) (hc : w.getLast? = some c) (hop : is_operator c = true) :
    parse_word w commands arguments
      = Step.next (commands ++ [(if w.length > 1 then arguments ++ [w.dropLast] else arguments)
          ++ [[c]]]) [] := by
  simp [parse_word, hc, hop]

theorem parse_word_plain (w : List Char) (c : Char) (commands : List command)
    (arguments : command) (hc : w.getLast? = some c) (hop : is_operator c = false)
    (h1 : c ≠ '#') (h2 : w.head? ≠ some '#') :
    parse_word w commands arguments = Step.next commands (arguments ++ [w]) := by
  simp [parse_word, hc, hop, h1, h2]

theorem parse_word_comment (w : List Char) (c : Char) (commands : List command)
    (arguments : command) (hc : w.getLast? = some c) (hop : is_operator c = false)
    (h : c = '#' ∨ w.head? = some '#') :
    parse_word w commands arguments = Step.ret (commands ++ [arguments]) := by
  by_cases h1 : c = '#'
  · subst h1
    simp [parse_word, hc, hop]
  · have h2 : w.head? = some '#' := h.resolve_left h1
    simp [parse_word, hc, hop, h1, h2]

theorem split_word_operator (w : List Char) (c : Char) (hc : w.getLast? = some c)
    (hop : is_operator c = true) :
    split_word w = if w.length > 1 then [w.dropLast, [c]] else [[c]] := by
  by_cases hl : w.length > 1
  · simp [split_word, hc, hop, hl]
  · have hw := @List.dropLast_append_getLast? _ w c (by simp [hc])
    have hd : w.dropLast = [] := by
      apply List.length_eq_zero.mp
      rw [List.length_dropLast]; omega
    rw [hd] at hw
    simp only [split_word, hc, hop, hl, and_false, if_false]
    rw [← hw]; rfl

theorem split_word_plain (w : List Char) (c : Char) (hc : w.getLast? = some c)
    (hop : is_operator c = false) : split_word w = [w] := by
  simp [split_word, hc, hop]

theorem glue_split_word (w : List Char) : glue (split_word w) = w := by
  unfold split_word
  cases hc : w.getLast? with
  | none => rfl
  | some c =>
    simp only []
    split
    · exact @List.dropLast_append_getLast? _ w c (by simp [hc])
    · rfl

theorem parse_finish_flatten (commands : List command) (arguments : command) :
    (parse_finish commands arguments).flatten = commands.flatten ++ arguments := by
  unfold parse_finish
  by_cases h : arguments = []
  · simp [h]
  · simp [h]

theorem parse_words_flatten (ws : List (List Char)) :
    ∀ (commands : List command) (arguments : command),
      (∀ w ∈ ws, w ≠ [] ∧ '#' ∉ w) →
      (parse_words ws commands arguments).flatten
        = commands.flatten ++ arguments ++ (ws.map split_word).flatten := by
  induction ws with
  | nil => intro commands arguments _; simp [parse_words, parse_finish_flatten]
  | cons w ws ih =>
    intro commands arguments h
    have hw := h w (List.mem_cons_self _ _)
    have hws : ∀ x ∈ ws, x ≠ [] ∧ '#' ∉ x := fun x hx => h x (List.mem_cons_of_mem _ hx)
    obtain ⟨c, hc⟩ : ∃ c, w.getLast? = some c := by
      cases hg : w.getLast? with
      | none => exact absurd (List.getLast?_eq_none_iff.mp hg) hw.1
      | some c => exact ⟨c, rfl⟩
    have hcmem : c ∈ w := List.mem_of_getLast?_eq_some hc
    rw [parse_words, List.map_cons]
    by_cases hop : is_operator c = true
    · rw [parse_word_operator w c commands arguments hc hop, split_word_operator w c hc hop]
      simp only []
      rw [ih _ _ hws]
      by_cases hl : w.length > 1
      · simp [hl]
      · simp [hl]
    · have hop2 : is_operator c = false := by simpa using hop
      have h1 : c ≠ '#' := fun e => hw.2 (e ▸ hcmem)
      have h2 : w.head? ≠ some '#' := fun e => hw.2 (List.mem_of_mem_head? e)
      rw [parse_word_plain w c commands arguments hc hop2 h1 h2, split_word_plain w c hc hop2]
      simp only []
      rw [ih _ _ hws]
      simp

/-- C1, segmenter round trip.  For every line without a `#` character,
`parse_line` returns, and the tokens of the returned commands, concatenated in
order, are the tokens the whitespace-separated words of the line are cut into,
word by word; gluing each operator token that was split from a longer word
back onto the token before it gives exactly the words of the line. -/
theorem parse_line_round_trip (line : List Char) (h : '#' ∉ line) :
    ∃ commands, parse_line line = some commands ∧
      commands.flatten = ((words line).map split_word).flatten ∧
      ((words line).map split_word).map glue = words line := by
  refine ⟨parse_words (words line) [] [], parse_line_eq_parse_words line, ?_, ?_⟩
  · have hw : ∀ w ∈ words line, w ≠ [] ∧ '#' ∉ w := fun w hw =>
      ⟨words_ne_nil line w hw, fun hc => h (words_subset line.length line (le_refl _) w hw _ hc)⟩
    simpa using parse_words_flatten (words line) [] [] hw
  · rw [List.map_map]
    conv_rhs => rw [← List.map_id (words line)]
    apply List.map_congr_left
    intro w _
    exact glue_split_word w

/-- C1 at the line `ls -l; sleep 5 & cat x| wc`. -/
theorem parse_line_round_trip_witness :
    '#' ∉ "ls -l; sleep 5 & cat x| wc".toList ∧
    ∃ commands, parse_line "ls -l; sleep 5 & cat x| wc".toList = some commands ∧
      commands.flatten = ((words "ls -l; sleep 5 & cat x| wc".toList).map split_word).flatten ∧
      ((words "ls -l; sleep 5 & cat x| wc".toList).map split_word).map glue
        = words "ls -l; sleep 5 & cat x| wc".toList :=
  ⟨by decide, parse_line_round_trip "ls -l; sleep 5 & cat x| wc".toList (by decide)⟩

/-! ## Segmenter: comments -/

theorem head?_dropLast (w : List Char) (h : w.length > 1) : w.dropLast.head? = w.head? := by
  match w, h with
  | a :: b :: rest, _ => simp [List.dropLast]

theorem is_operator_hash (c : Char) (h : is_operator c = true) : c ≠ '#' := by
  intro e
  subst e
  exact absurd h (by decide)

theorem parse_word_keeps (w : List Char) (commands : List command) (arguments : command)
    (hne : w ≠ []) (h1 : w.head? ≠ some '#') (h2 : w.getLast? ≠ some '#')
    (hok : segments_ok commands arguments) :
    ∃ cs as, parse_word w commands arguments = Step.next cs as ∧ segments_ok cs as ∧
      cs.flatten ++ as = commands.flatten ++ arguments ++ split_word w := by
  obtain ⟨c, hc⟩ : ∃ c, w.getLast? = some c := by
    cases hg : w.getLast? with
    | none => exact absurd (List.getLast?_eq_none_iff.mp hg) hne
    | some c => exact ⟨c, rfl⟩
  obtain ⟨hk1, hk2, hk3, hk4⟩ := hok
  by_cases hop : is_operator c = true
  · refine ⟨_, _, parse_word_operator w c commands arguments hc hop, ⟨?_, ?_, ?_, ?_⟩, ?_⟩
    · intro seg hseg
      rcases List.mem_append.mp hseg with hseg | hseg
      · exact hk1 seg hseg
      · refine ⟨c, hop, ?_⟩
        rw [List.mem_singleton.mp hseg]
        simp
    · intro t ht; simp at ht
    · intro seg hseg t ht
      rcases List.mem_append.mp hseg with hseg | hseg
      · exact hk3 seg hseg t ht
      · rw [List.mem_singleton.mp hseg] at ht
        rcases List.mem_append.mp ht with ht | ht
        · by_cases hl : w.length > 1
          · rw [if_pos hl] at ht
            rcases List.mem_append.mp ht with ht | ht
            · exact hk4 t ht
            · rw [List.mem_singleton.mp ht, head?_dropLast w hl]
              exact h1
          · rw [if_neg hl] at ht
            exact hk4 t ht
        · rw [List.mem_singleton.mp ht]
          simpa using is_operator_hash c hop
    · intro t ht; simp at ht
    · rw [split_word_operator w c hc hop]
      by_cases hl : w.length > 1
      · simp [hl]
      · simp [hl]
  · have hop2 : is_operator c = false := by simpa using hop
    have hc1 : c ≠ '#' := fun e => h2 (e ▸ hc)
    refine ⟨_, _, parse_word_plain w c commands arguments hc hop2 hc1 h1, ⟨hk1, ?_, hk3, ?_⟩, ?_⟩
    · intro t ht c1 hc1
      rcases List.mem_append.mp ht with ht | ht
      · exact hk2 t ht c1 hc1
      · rw [List.mem_singleton.mp ht, hc] at hc1
        cases hc1
        exact hop2
    · intro t ht
      rcases List.mem_append.mp ht with ht | ht
      · exact hk4 t ht
      · rw [List.mem_singleton.mp ht]; exact h1
    · rw [split_word_plain w c hc hop2]
      simp

theorem parse_words_comment (pre : List (List Char)) (w : List Char) (post : List (List Char))
    (hhash : w.head? = some '#' ∨ w.getLast? = some '#')
    (hop : ∀ c, w.getLast? = some c → is_operator c = false) (hne : w ≠ []) :
    ∀ (commands : List command) (arguments : command),
      (∀ x ∈ pre, x ≠ [] ∧ x.head? ≠ some '#' ∧ x.getLast? ≠ some '#') →
      segments_ok commands arguments →
      ∃ closed last, parse_words (pre ++ w :: post) commands arguments = closed ++ [last] ∧
        parse_words pre commands arguments = parse_finish closed last ∧
        (closed ++ [last]).flatten
          = commands.flatten ++ arguments ++ (pre.map split_word).flatten ∧
        segments_ok closed last := by
  induction pre with
  | nil =>
    intro commands arguments _ hok
    obtain ⟨c, hc⟩ : ∃ c, w.getLast? = some c := by
      cases hg : w.getLast? with
      | none => exact absurd (List.getLast?_eq_none_iff.mp hg) hne
      | some c => exact ⟨c, rfl⟩
    have hcom : parse_word w commands arguments = Step.ret (commands ++ [arguments]) := by
      apply parse_word_comment w c commands arguments hc (hop c hc)
      rcases hhash with h | h
      · exact Or.inr h
      · rw [hc] at h; cases h; exact Or.inl rfl
    refine ⟨commands, arguments, ?_, ?_, ?_, hok⟩
    · simp [parse_words, hcom]
    · simp [parse_words]
    · simp
  | cons x pre ih =>
    intro commands arguments hpre hok
    have hx := hpre x (List.mem_cons_self _ _)
    obtain ⟨cs, as, hstep, hok1, hfl⟩ :=
      parse_word_keeps x commands arguments hx.1 hx.2.1 hx.2.2 hok
    obtain ⟨closed, last, e1, e2, e3, e4⟩ :=
      ih cs as (fun y hy => hpre y (List.mem_cons_of_mem _ hy)) hok1
    refine ⟨closed, last, ?_, ?_, ?_, e4⟩
    · simp only [List.cons_append, parse_words, hstep]
      exact e1
    · simp only [parse_words, hstep]
      exact e2
    · rw [e3, List.map_cons, List.flatten_cons, ← List.append_assoc, ← hfl]

/-- C2, amended.  For every line, if the k-th whitespace-separated word is the
first one that begins or ends with `#`, and that word does not end in `;`, `&`
or `|`, then `parse_line` returns and its output is built only from the first
k-1 words: the segments they close, then the words accumulated since the last
operator as the final segment, with no operator; the `#` word and the words
after it give no token, and no token of the output begins with `#`. -/
theorem parse_line_comment (line : List Char) (pre : List (List Char)) (w : List Char)
    (post : List (List Char)) (hw : words line = pre ++ w :: post)
    (hpre : ∀ x ∈ pre, x.head? ≠ some '#' ∧ x.getLast? ≠ some '#')
    (hhash : w.head? = some '#' ∨ w.getLast? = some '#')
    (hop : ∀ c, w.getLast? = some c → is_operator c = false) :
    stops_after line pre := by
  have hmem : ∀ x ∈ pre ++ w :: post, x ≠ [] := fun x hx => words_ne_nil line x (hw ▸ hx)
  have hne : w ≠ [] := hmem w (by simp)
  have hpre2 : ∀ x ∈ pre, x ≠ [] ∧ x.head? ≠ some '#' ∧ x.getLast? ≠ some '#' :=
    fun x hx => ⟨hmem x (by simp [hx]), hpre x hx⟩
  have hok : segments_ok [] [] := by simp [segments_ok]
  obtain ⟨closed, last, e1, e2, e3, e4, e5, e6, e7⟩ :=
    parse_words_comment pre w post hhash hop hne [] [] hpre2 hok
  refine ⟨closed, last, ?_, e2, ?_, e4, e5, ?_⟩
  · rw [parse_line_eq_parse_words, hw, e1]
  · simpa using e3
  · intro seg hseg t ht
    rcases List.mem_append.mp hseg with hseg | hseg
    · exact e6 seg hseg t ht
    · rw [List.mem_singleton.mp hseg] at ht
      exact e7 t ht

/-- C2, amended, at the lines of the specification's example, `echo a # echo b`,
which gives the single command `echo a`. -/
theorem parse_line_comment_witness :
    words "echo a # echo b".toList
      = ["echo".toList, "a".toList] ++ "#".toList :: ["echo".toList, "b".toList] ∧
    stops_after "echo a # echo b".toList ["echo".toList, "a".toList] ∧
    parse_line "echo a # echo b".toList = some [["echo".toList, "a".toList]] :=
  ⟨by decide, parse_line_comment "echo a # echo b".toList ["echo".toList, "a".toList] "#".toList
      ["echo".toList, "b".toList] (by decide) (by decide) (by decide) (by decide),
    by decide⟩

/-- C2 as stated fails on `echo a# b #c`: the first word beginning with `#` is
the fourth, yet the line stops at the second word, `a#`, which ends with `#`;
the output is the single command `echo`, and the words `a#` and `b` are lost. -/
theorem comment_rule_counterexample :
    ¬ comment_rule_as_specified "echo a# b #c".toList ∧
    words "echo a# b #c".toList = ["echo".toList, "a#".toList, "b".toList, "#c".toList] ∧
    parse_line "echo a# b #c".toList = some [["echo".toList]] := by
  refine ⟨?_, by decide, by decide⟩
  intro h
  obtain ⟨closed, last, hp, _, hf, _⟩ :=
    h ["echo".toList, "a#".toList, "b".toList] "#c".toList [] (by decide) (by decide) (by decide)
  have e : parse_line "echo a# b #c".toList = some [["echo".toList]] := by decide
  rw [e] at hp
  injection hp with hp
  rw [← hp] at hf
  revert hf
  decide

/-- C9.  On the line `cmd ;;` the word `;;` is cut into two tokens `;` that
both land in one command, `cmd ; ;`: a bare operator token stands before the
last place, and `execute_commands` hands it to the program as an argument. -/
theorem parse_line_double_operator :
    parse_line "cmd ;;".toList = some [["cmd".toList, ";".toList, ";".toList]] ∧
    (run_line quiet [] "cmd ;;").map (fun r => dispatched r.trace)
      = some [["cmd".toList, ";".toList]] := by
  decide

/-! ## Dispatch loop -/

theorem dispatched_append (es fs : List Event) :
    dispatched (es ++ fs) = dispatched es ++ dispatched fs := by
  induction es with
  | nil => rfl
  | cons e es ih => cases e <;> simp [dispatched, ih]

theorem dispatched_index (slot : List Char) (cmd : command) (es : List Event) :
    dispatched ((if cmd.length = 0 then [Event.out_of_range slot] else []) ++ es)
      = dispatched es := by
  split <;> rfl

theorem dispatch_dispatched (w : World) (t : Nat) (foreground : Bool) (slot : List Char)
    (cmd : command) (events : List Event) (res : Int)
    (h : dispatch w t foreground slot cmd = (events, Except.ok res)) :
    dispatched events = [cmd] := by
  unfold dispatch at h
  simp only [] at h
  split at h
  · split at h
    · split at h
      · simp at h
      · simp only [Prod.mk.injEq] at h
        rw [← h.1, dispatched_index]; rfl
    · split at h
      · simp only [Prod.mk.injEq] at h
        rw [← h.1, dispatched_index]; rfl
      · split at h
        · simp only [Prod.mk.injEq] at h
          rw [← h.1, dispatched_index]; rfl
        · split at h
          · simp only [Prod.mk.injEq] at h
            rw [← h.1, dispatched_index]; rfl
          · simp only [Prod.mk.injEq] at h
            rw [← h.1, dispatched_index]; rfl
  · split at h
    · simp only [Prod.mk.injEq] at h
      rw [← h.1]
      exact (dispatched_index slot cmd [Event.spawn cmd false]).trans rfl
    · simp only [Prod.mk.injEq] at h
      rw [← h.1]
      exact (dispatched_index slot cmd [Event.program cmd false]).trans rfl

/-- Ordering and halt on every run that ends without a fault: the commands
dispatched are the segments before the first `exit` segment, each once, in
order and without their operator, and `is_quit_requested` tells whether there
is an `exit` segment. -/
theorem run_batch_order (w : World) (batch : List command) :
    ∀ (foreground : Bool) (res : Int) (pending_pid : List Int) (trace : List Event)
      (r : command_result),
      (run_batch w batch foreground res pending_pid trace).result = Except.ok r →
      dispatched (run_batch w batch foreground res pending_pid trace).trace
        = dispatched trace ++ (batch.takeWhile (fun cmd => !is_exit cmd)).map strip_operator ∧
      r.is_quit_requested = batch.any is_exit := by
  induction batch with
  | nil =>
    intro foreground res pending_pid trace r h
    simp only [run_batch] at h
    cases h
    simp [run_batch]
  | cons cmd rest ih =>
    intro foreground res pending_pid trace r h
    rw [run_batch] at h ⊢
    cases hh : cmd.head? with
    | none => simp [hh] at h
    | some first =>
      simp only [hh] at h ⊢
      by_cases hx : first = "exit".toList
      · rw [if_pos hx] at h
        rw [if_pos hx]
        cases h
        simp [is_exit, hh, hx, command_result.quit]
      · rw [if_neg hx] at h
        rw [if_neg hx]
        have hne : is_exit cmd = false := by simpa [is_exit, hh] using hx
        cases hd : dispatch w trace.length
            (if cmd.getLast? = some "&".toList then false else foreground) first
            (if has_operator cmd then cmd.dropLast else cmd) with
        | mk events out =>
          cases out with
          | error f =>
            rw [hd] at h
            cases h
          | ok res1 =>
            rw [hd] at h
            dsimp only at h ⊢
            obtain ⟨h1, h2⟩ := ih _ _ _ _ r h
            have hdd := dispatch_dispatched w _ _ _ _ events res1 hd
            refine ⟨?_, ?_⟩
            · rw [h1, dispatched_append, hdd]
              simp [List.takeWhile_cons, hne, strip_operator]
            · rw [h2]; simp [hne]

/-- C3.  The batch of `echo a ; # note` has no `exit` segment, so all its
segments are to be gone through and a result with `is_quit_requested = false`
returned.  `echo a` is dispatched, but the second segment is the empty token
list the comment leaves, and the test `cmd[0] == "exit"` of line 553 indexes
a vector without storage: the call stops there and returns no result. -/
theorem execute_commands_stops_at_empty_segment :
    parse_line "echo a ; # note".toList
      = some [["echo".toList, "a".toList, ";".toList], []] ∧
    run_line quiet [] "echo a ; # note"
      = some { result := Except.error Fault.index_out_of_range, pending_pid := [],
               trace := [Event.handler ["echo".toList, "a".toList], Event.stdout "a\n".toList] } := by
  decide

/-- Ordering and halt for `execute_commands` on every run that ends without a
fault. -/
theorem execute_commands_order (w : World) (pending_pid : List Int) (batch : List command)
    (r : command_result) (h : (execute_commands w pending_pid batch).result = Except.ok r) :
    dispatched (execute_commands w pending_pid batch).trace
      = dispatched (reap_pass w pending_pid []).2
        ++ (batch.takeWhile (fun cmd => !is_exit cmd)).map strip_operator ∧
    r.is_quit_requested = batch.any is_exit :=
  run_batch_order w batch true 0 _ _ r h

theorem run_batch_exit (w : World) (args : command) (post : List command)
    (pre : List command) :
    ∀ (foreground : Bool) (res : Int) (pending_pid : List Int) (trace : List Event)
      (r : Int) (p : List Int) (t : List Event),
      run_batch w pre foreground res pending_pid trace
        = { result := Except.ok { return_value := r, is_quit_requested := false },
            pending_pid := p, trace := t } →
      run_batch w (pre ++ ("exit".toList :: args) :: post) foreground res pending_pid trace
        = { result := Except.ok { return_value := r, is_quit_requested := true },
            pending_pid := p, trace := t } := by
  induction pre with
  | nil =>
    intro foreground res pending_pid trace r p t h
    simp only [run_batch, Run.mk.injEq, Except.ok.injEq, command_result.mk.injEq] at h
    obtain ⟨⟨h1, _⟩, h2, h3⟩ := h
    subst h1 h2 h3
    simp [run_batch, command_result.quit]
  | cons cmd pre ih =>
    intro foreground res pending_pid trace r p t h
    rw [run_batch] at h
    rw [List.cons_append, run_batch]
    cases hh : cmd.head? with
    | none => simp [hh] at h
    | some first =>
      simp only [hh] at h ⊢
      by_cases hx : first = "exit".toList
      · rw [if_pos hx] at h
        simp [command_result.quit] at h
      · rw [if_neg hx] at h
        rw [if_neg hx]
        cases hd : dispatch w trace.length
            (if cmd.getLast? = some "&".toList then false else foreground) first
            (if has_operator cmd then cmd.dropLast else cmd) with
        | mk events out =>
          cases out with
          | error f =>
            rw [hd] at h
            simp at h
          | ok res1 =>
            rw [hd] at h
            dsimp only at h ⊢
            exact ih _ _ _ _ r p t h

/-- C4, amended.  For every batch whose first `exit` segment is reached,
`execute_commands` returns with `is_quit_requested = true` and with the
`return_value` the batch would have returned had it ended just before that
segment (the running status, 0 when nothing was dispatched), whatever
arguments `exit` carries. -/
theorem execute_commands_exit (w : World) (pending_pid : List Int) (pre : List command)
    (args : command) (post : List command) (r : Int) (p : List Int) (t : List Event)
    (h : execute_commands w pending_pid pre
      = { result := Except.ok { return_value := r, is_quit_requested := false },
          pending_pid := p, trace := t }) :
    execute_commands w pending_pid (pre ++ ("exit".toList :: args) :: post)
      = { result := Except.ok { return_value := r, is_quit_requested := true },
          pending_pid := p, trace := t } :=
  run_batch_exit w args post pre true 0 _ _ r p t h

/-- C4, amended, at the batch of `false ; exit 3 ; echo y`: the status handed
back is 1, the status of `false`. -/
theorem execute_commands_exit_witness :
    execute_commands quiet [] [["false".toList, ";".toList]]
      = { result := Except.ok { return_value := 1, is_quit_requested := false },
          pending_pid := [], trace := [Event.program ["false".toList] true] } ∧
    execute_commands quiet []
        ([["false".toList, ";".toList]] ++ ("exit".toList :: ["3".toList, ";".toList])
          :: [["echo".toList, "y".toList]])
      = { result := Except.ok { return_value := 1, is_quit_requested := true },
          pending_pid := [], trace := [Event.program ["false".toList] true] } :=
  ⟨by decide,
    execute_commands_exit quiet [] [["false".toList, ";".toList]] ["3".toList, ";".toList]
      [["echo".toList, "y".toList]] 1 [] [Event.program ["false".toList] true] (by decide)⟩

/-- C4 as stated fails on `echo x ; exit 3 ; echo y`: the batch is the one the
claim names, `echo x` is dispatched and `echo y` is not, but the status
returned with the quit request is 0, the status of `echo x`, not 3. -/
theorem exit_status_counterexample :
    parse_line "echo x ; exit 3 ; echo y".toList
      = some [["echo".toList, "x".toList, ";".toList],
              ["exit".toList, "3".toList, ";".toList], ["echo".toList, "y".toList]] ∧
    run_line quiet [] "echo x ; exit 3 ; echo y"
      = some { result := Except.ok { return_value := 0, is_quit_requested := true },
               pending_pid := [],
               trace := [Event.handler ["echo".toList, "x".toList], Event.stdout "x\n".toList] } := by
  decide

/-- C5.  In the batch of `sleep 5 & echo done` the segment `echo done` has no
`&`, yet it is run in the background: `foreground` (line 528) is set to false
by the `&` of `sleep 5` and is not set back, so `echo` is started in a new
process without waiting and its process identifier joins `pending_pid`. -/
theorem execute_commands_background_sticks :
    run_line quiet [] "sleep 5 & echo done"
      = some { result := Except.ok { return_value := 4244, is_quit_requested := false },
               pending_pid := [4242, 4244],
               trace := [Event.stdout "Background\n".toList,
                         Event.program ["sleep".toList, "5".toList] false,
                         Event.stdout "Background\n".toList,
                         Event.spawn ["echo".toList, "done".toList] false] } := by
  decide

/-- C6.  After `a & b & c &` the pending table holds three distinct process
identifiers.  In the next reap pass, when the first one has finished, it is
removed while the loop of line 531 stands on its slot: the second identifier
moves into that slot and is never checked in this pass, and the third one is
checked twice.  When the third has finished too, its completion is reported
twice in that one pass. -/
theorem reap_pass_skips_and_repeats :
    (run_line quiet [] "a & b & c &").map (fun r => r.pending_pid) = some [4242, 4244, 4246] ∧
    execute_commands first_done [4242, 4244, 4246] []
      = { result := Except.ok { return_value := 0, is_quit_requested := false },
          pending_pid := [4244, 4246],
          trace := [Event.check 4242, Event.notice 4242 0, Event.check 4246,
                    Event.check 4246] } ∧
    execute_commands two_done [4242, 4244, 4246] []
      = { result := Except.ok { return_value := 0, is_quit_requested := false },
          pending_pid := [4244],
          trace := [Event.check 4242, Event.notice 4242 0, Event.check 4246,
                    Event.notice 4246 0, Event.check 4246, Event.notice 4246 0] } := by
  decide

/-- C7.  A segment with an empty command is not a no-op, whatever the world
and the pending table.  An empty token list (from `# note`) makes the test of
line 553 index a vector without storage, which stops the call with the rest
of the batch unprocessed.  For a segment holding only `;`, `|` or `&`, once
line 563 has removed the operator the tests of lines 567-587 (607-622 in the
background) evaluate `cmd[0]` on the emptied vector, and then a process is
spawned for the empty command (line 601 or 629; in the background its
identifier joins `pending_pid`) before the rest of the batch is gone through. -/
theorem execute_commands_empty_command (w : World) (pending_pid : List Int)
    (rest : List command) :
    parse_line "# note".toList = some [[]] ∧
    parse_line ";".toList = some [[";".toList]] ∧
    (execute_commands w pending_pid ([] :: rest)).result
      = Except.error Fault.index_out_of_range ∧
    execute_commands w pending_pid ([";".toList] :: rest)
      = run_batch w rest true
          (execute_program w (reap_pass w pending_pid []).2.length [] true)
          (reap_pass w pending_pid []).1
          ((reap_pass w pending_pid []).2
            ++ [Event.out_of_range ";".toList, Event.program [] true]) ∧
    execute_commands w pending_pid (["|".toList] :: rest)
      = run_batch w rest true
          (execute_program w (reap_pass w pending_pid []).2.length [] true)
          (reap_pass w pending_pid []).1
          ((reap_pass w pending_pid []).2
            ++ [Event.out_of_range "|".toList, Event.program [] true]) ∧
    execute_commands w pending_pid (["&".toList] :: rest)
      = run_batch w rest false
          (execute_program w (reap_pass w pending_pid []).2.length [] false)
          ((reap_pass w pending_pid []).1
            ++ [execute_program w (reap_pass w pending_pid []).2.length [] false])
          ((reap_pass w pending_pid []).2
            ++ [Event.stdout "Background\n".toList, Event.out_of_range "&".toList,
                Event.program [] false]) ∧
    run_line quiet [] "cmd ; ;"
      = some { result := Except.ok { return_value := 0, is_quit_requested := false },
               pending_pid := [],
               trace := [Event.program ["cmd".toList] true, Event.out_of_range ";".toList,
                         Event.program [] true] } := by
  refine ⟨by decide, by decide, ?_, ?_, ?_, ?_, by decide⟩
  · simp [execute_commands, run_batch]
  · simp [execute_commands, run_batch, has_operator, dispatch]
  · simp [execute_commands, run_batch, has_operator, dispatch]
  · simp [execute_commands, run_batch, has_operator, dispatch]

/-- C8.  With no argument, `echo_command` removes the last character of an
empty string (line 213); nothing is written and no status is returned. -/
theorem echo_command_no_argument :
    echo_command ["echo".toList] = Except.error Fault.pop_back_on_empty := by
  decide

theorem echo_fold (args : List (List Char)) :
    ∀ output : List Char,
      args.foldl (fun output arg => output ++ arg ++ [' ']) output
        = output ++ (args.map (fun arg => arg ++ [' '])).flatten := by
  induction args with
  | nil => intro output; simp
  | cons a args ih =>
    intro output
    rw [List.foldl_cons, ih, List.map_cons, List.flatten_cons]
    simp

theorem join_with_spaces_space (a : List Char) (args : List (List Char)) :
    ((a :: args).map (fun arg => arg ++ [' '])).flatten = join_with_spaces (a :: args) ++ [' '] := by
  induction args generalizing a with
  | nil => simp [join_with_spaces]
  | cons b args ih =>
    rw [List.map_cons, List.flatten_cons, ih b]
    simp [join_with_spaces]

/-- With one argument or more, `echo_command` writes the arguments joined by
single spaces, then a newline, and returns 0. -/
theorem echo_command_arguments (name a : List Char) (args : List (List Char)) :
    echo_command (name :: a :: args)
      = Except.ok (join_with_spaces (a :: args) ++ ['\n'], 0) := by
  simp only [echo_command, List.drop_succ_cons, List.drop_zero]
  rw [echo_fold, join_with_spaces_space]
  simp

/-- C10.  In the batch of `false ; sleep 5 &` the foreground segment `false`
leaves status 1, but the background dispatch of `sleep 5` assigns the process
identifier returned by the spawn to `res` (line 629) before appending it to
`pending_pid` (line 634): the batch returns 4243, the identifier, not 1. -/
theorem execute_commands_returns_pid :
    run_line quiet [] "false ; sleep 5 &"
      = some { result := Except.ok { return_value := 4243, is_quit_requested := false },
               pending_pid := [4243],
               trace := [Event.program ["false".toList] true,
                         Event.stdout "Background\n".toList,
                         Event.program ["sleep".toList, "5".toList] false] } := by
  decide

end Shell
